import Mathlib

/-!
Shallow embedding of `CTFtimeDiscordHooks.py` (and its caller `main.py`)
from the CTFTimeDiscordBot repository.

Python strings are sequences of Unicode code points; where character
counts and slicing matter they are modelled as `List Char`, otherwise as
Lean `String`.  Effects (file writes, creating/running the chat client,
sending messages, closing the connection) are modelled as event traces.
The `while` loops of `post_announcement` are modelled with explicit fuel
counting outer iterations: a `none` result means the fuel was exhausted,
i.e. the loop ran longer than the given bound.
-/

namespace CTFTimeBot

/-- Module constant `DEFAULT_ICON` (line 13). -/
def DEFAULT_ICON : String :=
  "https://pbs.twimg.com/profile_images/2189766987/ctftime-logo-avatar_400x400.png"

/-- Module constant `BASE_URL` (line 17). -/
def BASE_URL : String := "https://ctftime.org"

/-- `url.startswith("/")` (line 188): a Python string starts with the
one-character prefix "/" exactly when its first code point is '/'. -/
def startsWithSlash (url : String) : Bool :=
  url.data.head? = some '/'

/-- `CTF.parse_logo_url` (lines 183-191): empty input yields the default
icon, an input starting with "/" is prefixed with the base URL, anything
else is returned unchanged. -/
def parse_logo_url (url : String) : String :=
  if url = "" then DEFAULT_ICON
  else if startsWithSlash url then BASE_URL ++ url
  else url

/-- Lines 154-158 of `CTF.__init__`: `json_obj.get("description", "")`
followed by the blank-default and the over-2048 truncation.  `none`
models an absent `description` key; strings are lists of code points. -/
def parse_description (input : Option (List Char)) : List Char :=
  let d := input.getD []
  if d = [] then "No description :shrug:".data
  else if d.length > 2048 then d.take 2044 ++ "...".data
  else d

/-- The `datetime` value produced by `datetime.strptime`: broken-down
time plus the UTC offset in minutes contributed by `%z`. -/
structure PyDatetime where
  year : Nat
  month : Nat
  day : Nat
  hour : Nat
  minute : Nat
  second : Nat
  tzMinutes : Int
deriving DecidableEq, Repr

/-- Numeric value of a decimal digit character, `none` otherwise. -/
def digit? (c : Char) : Option Nat :=
  if c.isDigit then some (c.toNat - '0'.toNat) else none

/-- Leap-year rule of the proleptic Gregorian calendar used by Python's
`datetime`. -/
def isLeapYear (y : Nat) : Bool :=
  (y % 4 = 0 && y % 100 ≠ 0) || y % 400 = 0

/-- Number of days in a month, as validated by `datetime`. -/
def daysInMonth (y m : Nat) : Nat :=
  if m = 2 then (if isLeapYear y then 29 else 28)
  else if m = 4 ∨ m = 6 ∨ m = 9 ∨ m = 11 then 30
  else 31

/-- Combine two digit characters into a two-digit number. -/
def twoDigits (a b : Char) : Option Nat := do
  let x ← digit? a
  let y ← digit? b
  pure (10 * x + y)

/-- `datetime.strptime(s, "%Y-%m-%dT%H%M%S%z")` restricted to the
fixed-width form of the format (4-digit year, 2-digit month/day/hour/
minute/second, offset `±HHMM` or the literal `Z`), with the range
validation `datetime` performs (month 1-12, day within the month,
hour ≤ 23, minute/second ≤ 59, offset within ±24 h).  `none` models a
raised `ValueError`. -/
def strptime (s : List Char) : Option PyDatetime :=
  match s with
  | [y1, y2, y3, y4, '-', mo1, mo2, '-', d1, d2, 'T',
     h1, h2, mi1, mi2, s1, s2, 'Z'] => do
      let y ← twoDigits y1 y2
      let y' ← twoDigits y3 y4
      let mo ← twoDigits mo1 mo2
      let d ← twoDigits d1 d2
      let h ← twoDigits h1 h2
      let mi ← twoDigits mi1 mi2
      let sec ← twoDigits s1 s2
      let year := 100 * y + y'
      if 1 ≤ mo ∧ mo ≤ 12 ∧ 1 ≤ d ∧ d ≤ daysInMonth year mo ∧
          h ≤ 23 ∧ mi ≤ 59 ∧ sec ≤ 59 then
        pure ⟨year, mo, d, h, mi, sec, 0⟩
      else none
  | [y1, y2, y3, y4, '-', mo1, mo2, '-', d1, d2, 'T',
     h1, h2, mi1, mi2, s1, s2, zsign, z1, z2, z3, z4] => do
      let y ← twoDigits y1 y2
      let y' ← twoDigits y3 y4
      let mo ← twoDigits mo1 mo2
      let d ← twoDigits d1 d2
      let h ← twoDigits h1 h2
      let mi ← twoDigits mi1 mi2
      let sec ← twoDigits s1 s2
      let zh ← twoDigits z1 z2
      let zm ← twoDigits z3 z4
      let sign ← if zsign = '+' then some (1 : Int)
                 else if zsign = '-' then some (-1 : Int)
                 else none
      let year := 100 * y + y'
      if 1 ≤ mo ∧ mo ≤ 12 ∧ 1 ≤ d ∧ d ≤ daysInMonth year mo ∧
          h ≤ 23 ∧ mi ≤ 59 ∧ sec ≤ 59 ∧ zm ≤ 59 ∧ 60 * zh + zm ≤ 1440 then
        pure ⟨year, mo, d, h, mi, sec, sign * (60 * zh + zm)⟩
      else none
  | _ => none

/-- `CTF.parse_time` (lines 193-198): empty input is replaced by the
epoch string, all ":" characters are removed, and the result is parsed
with `strptime`; a `none` result models the `ValueError` that
`datetime.strptime` raises on input not matching the format. -/
def parse_time (time : List Char) : Option PyDatetime :=
  let t := if time = [] then "1970-01-01T00:00:00+00:00".data else time
  strptime (t.filter (fun c => c ≠ ':'))

/-- The Unix-epoch instant `1970-01-01T00:00:00+00:00`. -/
def epochDatetime : PyDatetime := ⟨1970, 1, 1, 0, 0, 0, 0⟩

/-! ## The chunked publisher (`CtfTimeClient.post_announcement`) -/

/-- Discord channel kinds relevant to `post_announcement`: ordinary text
channels, news (announcement) channels, and everything else.  In
discord.py both `text` and `news` channels are instances of
`discord.TextChannel`; `channel.type == discord.ChannelType.news`
distinguishes the news kind. -/
inductive ChannelType where
  | text
  | news
  | other
deriving DecidableEq, Repr

/-- The part of a resolved Discord channel `post_announcement` inspects. -/
structure Channel where
  ctype : ChannelType
deriving DecidableEq, Repr

/-- `isinstance(channel, discord.TextChannel)` (line 63): true for text
and news channels. -/
def isTextChannel : ChannelType → Bool
  | ChannelType.other => false
  | _ => true

/-- Observable effects of `post_announcement`, in the order they occur:
`channel.send(content=c, embeds=batch)` (line 96), `message.publish()`
(line 107), `self.close()` (lines 60, 101, 115). -/
inductive PEv (α : Type) where
  | send (content : Option String) (batch : List α)
  | publish
  | close
deriving DecidableEq, Repr

variable {α : Type}

/-- The inner `while` loop of `post_announcement` (lines 76-87).
`revPending` is the Python list `self.embeds` with the element popped
first (i.e. the Python list's last element) at the head; `chunk` and
`clen` are `embed_chunk` and `chunk_len`.  Returns the finished
`embed_chunk`, the remaining pending list (same head-is-next-pop
convention) and the final `chunk_len`. -/
def buildChunk (len : α → Nat) : List α → List α → Nat → List α × List α × Nat
  | [], chunk, clen => (chunk, [], clen)
  | e :: rest, chunk, clen =>
    if clen + len e > 6000 then (chunk, e :: rest, clen)
    else if (chunk ++ [e]).length ≥ 10 then (chunk ++ [e], rest, clen + len e)
    else buildChunk len rest (chunk ++ [e]) (clen + len e)

/-- The outer `while` loop of `post_announcement` (lines 73-111) plus
the final close and `return True` (lines 115-118).  `len` is
`len(embed)` (the serialized length of an embed); `content` is
`self.content`; `sendOk k` tells whether the `k`-th `channel.send`
returns a message (`if not message`, line 98); `first` is the Python
variable `first`, which the source never reassigns; `fuel` bounds the
number of outer iterations, `none` meaning the bound was exceeded.
The returned trace lists the effects in order of occurrence. -/
def postLoop (len : α → Nat) (ch : Channel) (content : String)
    (sendOk : Nat → Bool) :
    Nat → List α → Bool → Nat → Option (Bool × List (PEv α))
  | 0, revPending, _, _ =>
      if revPending.isEmpty then some (true, [PEv.close]) else none
  | fuel + 1, revPending, first, k =>
      if revPending.isEmpty then some (true, [PEv.close])
      else
        let r := buildChunk len revPending [] 0
        let c := if first then some content else none
        if sendOk k then
          let pubs : List (PEv α) :=
            if ch.ctype = ChannelType.news then [PEv.publish] else []
          (postLoop len ch content sendOk fuel r.2.1 first (k + 1)).map
            (fun p => (p.1, PEv.send c r.1 :: (pubs ++ p.2)))
        else some (false, [PEv.send c r.1, PEv.close])

/-- `CtfTimeClient.post_announcement` (lines 50-118) after the readiness
wait: `resolved` is the result of `self.get_channel(self.channel_id)`
(line 57, `none` when falsy); an unresolved channel logs, closes and
returns `False` (lines 58-61); a resolved channel that is not a
`TextChannel` logs and returns `False` without closing (lines 63-69);
otherwise the send loop runs on `embeds` (popped from the end). -/
def post_announcement (len : α → Nat) (resolved : Option Channel)
    (content : String) (sendOk : Nat → Bool) (embeds : List α)
    (fuel : Nat) : Option (Bool × List (PEv α)) :=
  match resolved with
  | none => some (false, [PEv.close])
  | some ch =>
      if isTextChannel ch.ctype then
        postLoop len ch content sendOk fuel embeds.reverse true 0
      else some (false, [])

/-- The `(content, batch)` pairs of the send events of a trace, in
order. -/
def sendsOf : List (PEv α) → List (Option String × List α)
  | [] => []
  | PEv.send c b :: tr => (c, b) :: sendsOf tr
  | PEv.publish :: tr => sendsOf tr
  | PEv.close :: tr => sendsOf tr

/-- All embeds sent by a trace, in the order they were sent. -/
def joinBatches (tr : List (PEv α)) : List α :=
  ((sendsOf tr).map Prod.snd).flatten

/-! ## `send_updates` and the dedup cache -/

/-- The part of a `CTF` record that `send_updates` control flow depends
on: its `cid` (`json_obj.get("id", 0)`), used to build the cache
string.  The embeds built from the other fields are carried opaquely by
the trace events. -/
structure CTF where
  cid : Nat
deriving DecidableEq, Repr

/-- Python's `str.strip()` with no argument (line 238): remove leading
and trailing whitespace from the cached string. -/
def pyStrip (s : String) : String :=
  ⟨((s.data.dropWhile Char.isWhitespace).reverse.dropWhile
      Char.isWhitespace).reverse⟩

/-- `",".join([str(ctf.cid) for ctf in ctfs])` (line 249). -/
def joined_ids (ctfs : List CTF) : String :=
  String.intercalate "," (ctfs.map (fun ctf => toString ctf.cid))

/-- Observable effects of `send_updates`: overwriting the cache file
with an ID string (lines 255-258) and creating/running the Discord
client (lines 260-268). -/
inductive UEv where
  | cacheWrite (ids : String)
  | clientRun
deriving DecidableEq, Repr

/-- `send_updates` (lines 231-270).  `cacheFile` is the contents of the
cache file when a cache path is configured (`none` = no `cache_path`);
`fetched` is the result of `get_ctfs` (`none` = network/API failure);
`publishOk` is the eventual outcome of the Discord posting, which the
source never consults (`client.run` returns nothing and the function
returns `True` unconditionally afterwards).  The returned trace lists
the cache write and client run in order of occurrence.  Note that
`if not ctfs` (line 242) is true both for `None` and for the empty
list. -/
def send_updates (cacheFile : Option String) (fetched : Option (List CTF))
    (publishOk : Bool) : Bool × List UEv :=
  let cache := match cacheFile with
    | some contents => pyStrip contents
    | none => ""
  match fetched with
  | none => (false, [])
  | some ctfs =>
      if ctfs = [] then (false, [])
      else
        let ids := joined_ids ctfs
        if cache = ids then (false, [])
        else
          let writes := match cacheFile with
            | some _ => [UEv.cacheWrite ids]
            | none => []
          let _ := publishOk
          (true, writes ++ [UEv.clientRun])

/-! ## Helper lemmas -/

theorem sendsOf_append (l1 l2 : List (PEv α)) :
    sendsOf (l1 ++ l2) = sendsOf l1 ++ sendsOf l2 := by
  induction l1 with
  | nil => rfl
  | cons e tl ih => cases e <;> simp [sendsOf, ih]

theorem joinBatches_append (l1 l2 : List (PEv α)) :
    joinBatches (l1 ++ l2) = joinBatches l1 ++ joinBatches l2 := by
  simp [joinBatches, sendsOf_append]

theorem joinBatches_close : joinBatches ([PEv.close] : List (PEv α)) = [] := rfl

theorem joinBatches_send_cons (c : Option String) (batch : List α)
    (tr : List (PEv α)) :
    joinBatches (PEv.send c batch :: tr) = batch ++ joinBatches tr := by
  simp [joinBatches, sendsOf]

theorem joinBatches_publish_cons (tr : List (PEv α)) :
    joinBatches (PEv.publish :: tr) = joinBatches tr := by
  simp [joinBatches, sendsOf]

/-- Structure of one pass of the inner loop: the chunk is extended by
the consumed embeds `d`, the input list splits as `d` followed by the
remaining pending list, the chunk length grows by the lengths of `d`,
and every consumed embed fits in the 6000-character budget on its
own. -/
theorem buildChunk_spec (len : α → Nat) (rev : List α) :
    ∀ (chunk : List α) (clen : Nat), ∃ d : List α,
      (buildChunk len rev chunk clen).1 = chunk ++ d ∧
      rev = d ++ (buildChunk len rev chunk clen).2.1 ∧
      (buildChunk len rev chunk clen).2.2 = clen + (d.map len).sum ∧
      ∀ y ∈ d, len y ≤ 6000 := by
  induction rev with
  | nil => intro chunk clen; exact ⟨[], by simp [buildChunk]⟩
  | cons e rest ih =>
    intro chunk clen
    by_cases h1 : clen + len e > 6000
    · exact ⟨[], by simp [buildChunk, h1]⟩
    · by_cases h2 : (chunk ++ [e]).length ≥ 10
      · refine ⟨[e], ?_, ?_, ?_, ?_⟩
        · simp only [buildChunk]; rw [if_neg h1, if_pos h2]
        · simp only [buildChunk]; rw [if_neg h1, if_pos h2]; simp
        · simp only [buildChunk]; rw [if_neg h1, if_pos h2]; simp
        · intro y hy
          simp only [List.mem_singleton] at hy
          subst hy
          omega
      · obtain ⟨d, hd1, hd2, hd3, hd4⟩ := ih (chunk ++ [e]) (clen + len e)
        refine ⟨e :: d, ?_, ?_, ?_, ?_⟩
        · simp only [buildChunk]; rw [if_neg h1, if_neg h2]
          simpa using hd1
        · simp only [buildChunk]; rw [if_neg h1, if_neg h2]
          simpa using hd2
        · simp only [buildChunk]; rw [if_neg h1, if_neg h2]
          simp only [List.map_cons, List.sum_cons]
          omega
        · intro y hy
          rcases List.mem_cons.mp hy with rfl | hy
          · omega
          · exact hd4 y hy

/-- The inner loop never builds a chunk of more than 10 embeds. -/
theorem buildChunk_chunk_le (len : α → Nat) (rev : List α) :
    ∀ (chunk : List α) (clen : Nat), chunk.length < 10 →
      (buildChunk len rev chunk clen).1.length ≤ 10 := by
  induction rev with
  | nil => intro chunk clen h; simpa [buildChunk] using Nat.le_of_lt h
  | cons e rest ih =>
    intro chunk clen h
    by_cases h1 : clen + len e > 6000
    · simpa [buildChunk, h1] using Nat.le_of_lt h
    · by_cases h2 : (chunk ++ [e]).length ≥ 10
      · simp only [buildChunk]; rw [if_neg h1, if_pos h2]
        simp only [List.length_append, List.length_singleton]
        omega
      · simp only [buildChunk]; rw [if_neg h1, if_neg h2]
        exact ih _ _ (by simp at h2 ⊢; omega)

/-- The inner loop never lets the chunk length pass 6000 characters. -/
theorem buildChunk_clen_le (len : α → Nat) (rev : List α) :
    ∀ (chunk : List α) (clen : Nat), clen ≤ 6000 →
      (buildChunk len rev chunk clen).2.2 ≤ 6000 := by
  induction rev with
  | nil => intro chunk clen h; simpa [buildChunk] using h
  | cons e rest ih =>
    intro chunk clen h
    by_cases h1 : clen + len e > 6000
    · simpa [buildChunk, h1] using h
    · by_cases h2 : (chunk ++ [e]).length ≥ 10
      · simp only [buildChunk]; rw [if_neg h1, if_pos h2]
        simp only []
        omega
      · simp only [buildChunk]; rw [if_neg h1, if_neg h2]
        exact ih _ _ (by omega)

/-- The remaining pending list never grows. -/
theorem buildChunk_rem_le (len : α → Nat) (rev chunk : List α) (clen : Nat) :
    (buildChunk len rev chunk clen).2.1.length ≤ rev.length := by
  obtain ⟨d, -, h2, -, -⟩ := buildChunk_spec len rev chunk clen
  have h3 := congrArg List.length h2
  simp only [List.length_append] at h3
  omega

/-- When the next embed to be popped fits the remaining budget, one
pass of the inner loop removes at least one embed from the pending
list. -/
theorem buildChunk_progress (len : α → Nat) (e : α) (rest chunk : List α)
    (clen : Nat) (h1 : ¬ clen + len e > 6000) :
    (buildChunk len (e :: rest) chunk clen).2.1.length ≤ rest.length := by
  by_cases h2 : (chunk ++ [e]).length ≥ 10
  · simp only [buildChunk]; rw [if_neg h1, if_pos h2]
  · simp only [buildChunk]; rw [if_neg h1, if_neg h2]
    exact buildChunk_rem_le len rest _ _

/-- Every terminating run of the send loop sends an initial segment of
the pending list, in order; the whole pending list is sent exactly when
the loop reports success, and every embed actually sent fits the
6000-character budget on its own. -/
theorem postLoop_trace (len : α → Nat) (ch : Channel) (content : String)
    (sendOk : Nat → Bool) :
    ∀ (fuel : Nat) (rev : List α) (first : Bool) (k : Nat) (b : Bool)
      (tr : List (PEv α)),
      postLoop len ch content sendOk fuel rev first k = some (b, tr) →
      ∃ rem, rev = joinBatches tr ++ rem ∧ (b = true → rem = []) ∧
        ∀ y ∈ joinBatches tr, len y ≤ 6000 := by
  intro fuel
  induction fuel with
  | zero =>
    intro rev first k b tr h
    simp only [postLoop] at h
    by_cases he : rev.isEmpty
    · rw [if_pos he] at h
      simp only [Option.some.injEq, Prod.mk.injEq] at h
      obtain ⟨rfl, rfl⟩ := h
      exact ⟨[], by simp [List.isEmpty_iff.mp he, joinBatches_close],
        fun _ => rfl, by simp [joinBatches_close]⟩
    · rw [if_neg he] at h
      exact absurd h (by simp)
  | succ fuel ih =>
    intro rev first k b tr h
    simp only [postLoop] at h
    by_cases he : rev.isEmpty
    · rw [if_pos he] at h
      simp only [Option.some.injEq, Prod.mk.injEq] at h
      obtain ⟨rfl, rfl⟩ := h
      exact ⟨[], by simp [List.isEmpty_iff.mp he, joinBatches_close],
        fun _ => rfl, by simp [joinBatches_close]⟩
    · rw [if_neg he] at h
      obtain ⟨d, hd1, hd2, hd3, hd4⟩ := buildChunk_spec len rev [] 0
      by_cases hs : sendOk k
      · rw [if_pos hs] at h
        obtain ⟨⟨b2, tr2⟩, hrec, hmap⟩ := Option.map_eq_some'.mp h
        simp only [Prod.mk.injEq] at hmap
        obtain ⟨rfl, rfl⟩ := hmap
        obtain ⟨rem2, hrem2, hb2, hmem2⟩ := ih _ _ _ _ _ hrec
        have hpubs : joinBatches
            (if ch.ctype = ChannelType.news then [PEv.publish (α := α)] else []) = [] := by
          by_cases hn : ch.ctype = ChannelType.news <;>
            simp [hn, joinBatches, sendsOf]
        refine ⟨rem2, ?_, hb2, ?_⟩
        · rw [joinBatches_send_cons, joinBatches_append, hpubs]
          simp only [List.nil_append] at hd1 ⊢
          rw [hd1, List.append_assoc, ← hrem2]
          exact hd2
        · intro y hy
          rw [joinBatches_send_cons, joinBatches_append, hpubs] at hy
          simp only [List.nil_append, List.append_nil, List.mem_append] at hy
          rcases hy with hy | hy
          · exact hd4 y (by rw [hd1] at hy; simpa using hy)
          · exact hmem2 y hy
      · rw [if_neg hs] at h
        simp only [Option.some.injEq, Prod.mk.injEq] at h
        obtain ⟨rfl, rfl⟩ := h
        refine ⟨(buildChunk len rev [] 0).2.1, ?_, ?_, ?_⟩
        · rw [joinBatches_send_cons, joinBatches_close, List.append_nil,
            hd1, List.nil_append, ← hd2]
        · intro hc; exact absurd hc (by simp)
        · intro y hy
          rw [joinBatches_send_cons, joinBatches_close, List.append_nil,
            hd1, List.nil_append] at hy
          exact hd4 y hy

/-- Every batch actually sent by the loop holds at most 10 embeds whose
serialized lengths sum to at most 6000. -/
theorem postLoop_batches_ok (len : α → Nat) (ch : Channel) (content : String)
    (sendOk : Nat → Bool) :
    ∀ (fuel : Nat) (rev : List α) (first : Bool) (k : Nat) (b : Bool)
      (tr : List (PEv α)),
      postLoop len ch content sendOk fuel rev first k = some (b, tr) →
      ∀ cb ∈ sendsOf tr, cb.2.length ≤ 10 ∧ (cb.2.map len).sum ≤ 6000 := by
  intro fuel
  induction fuel with
  | zero =>
    intro rev first k b tr h
    simp only [postLoop] at h
    by_cases he : rev.isEmpty
    · rw [if_pos he] at h
      simp only [Option.some.injEq, Prod.mk.injEq] at h
      obtain ⟨rfl, rfl⟩ := h
      simp [sendsOf]
    · rw [if_neg he] at h
      exact absurd h (by simp)
  | succ fuel ih =>
    intro rev first k b tr h
    simp only [postLoop] at h
    by_cases he : rev.isEmpty
    · rw [if_pos he] at h
      simp only [Option.some.injEq, Prod.mk.injEq] at h
      obtain ⟨rfl, rfl⟩ := h
      simp [sendsOf]
    · rw [if_neg he] at h
      have hlen : (buildChunk len rev [] 0).1.length ≤ 10 :=
        buildChunk_chunk_le len rev [] 0 (by simp)
      have hsum : ((buildChunk len rev [] 0).1.map len).sum ≤ 6000 := by
        obtain ⟨d, hd1, -, hd3, -⟩ := buildChunk_spec len rev [] 0
        have hcl := buildChunk_clen_le len rev [] 0 (by omega)
        rw [hd1]
        simp only [List.nil_append]
        omega
      have hpubs : sendsOf
          (if ch.ctype = ChannelType.news then [PEv.publish (α := α)] else []) = [] := by
        by_cases hn : ch.ctype = ChannelType.news <;> simp [hn, sendsOf]
      by_cases hs : sendOk k
      · rw [if_pos hs] at h
        obtain ⟨⟨b2, tr2⟩, hrec, hmap⟩ := Option.map_eq_some'.mp h
        simp only [Prod.mk.injEq] at hmap
        obtain ⟨rfl, rfl⟩ := hmap
        intro cb hcb
        simp only [sendsOf, sendsOf_append, hpubs, List.nil_append,
          List.mem_cons] at hcb
        rcases hcb with rfl | hcb
        · exact ⟨hlen, hsum⟩
        · exact ih _ _ _ _ _ hrec cb hcb
      · rw [if_neg hs] at h
        simp only [Option.some.injEq, Prod.mk.injEq] at h
        obtain ⟨rfl, rfl⟩ := h
        intro cb hcb
        simp only [sendsOf, List.mem_cons, List.not_mem_nil, or_false] at hcb
        subst hcb
        exact ⟨hlen, hsum⟩

/-- If the `i`-th send counting from the loop's starting index returns
no message while all earlier ones succeed, the loop stops right there:
it reports failure and the trace ends with the failing send followed by
the close, with exactly `i` earlier sends before it. -/
theorem postLoop_fail (len : α → Nat) (ch : Channel) (content : String)
    (sendOk : Nat → Bool) :
    ∀ (fuel : Nat) (rev : List α) (first : Bool) (k i : Nat) (b : Bool)
      (tr : List (PEv α)),
      postLoop len ch content sendOk fuel rev first k = some (b, tr) →
      sendOk (k + i) = false →
      (∀ m, m < i → sendOk (k + m) = true) →
      i < (sendsOf tr).length →
      b = false ∧ ∃ c batch tr₀,
        tr = tr₀ ++ [PEv.send c batch, PEv.close] ∧
        (sendsOf tr₀).length = i := by
  intro fuel
  induction fuel with
  | zero =>
    intro rev first k i b tr h hfail hbefore hlt
    simp only [postLoop] at h
    by_cases he : rev.isEmpty
    · rw [if_pos he] at h
      simp only [Option.some.injEq, Prod.mk.injEq] at h
      obtain ⟨rfl, rfl⟩ := h
      simp [sendsOf] at hlt
    · rw [if_neg he] at h
      exact absurd h (by simp)
  | succ fuel ih =>
    intro rev first k i b tr h hfail hbefore hlt
    simp only [postLoop] at h
    by_cases he : rev.isEmpty
    · rw [if_pos he] at h
      simp only [Option.some.injEq, Prod.mk.injEq] at h
      obtain ⟨rfl, rfl⟩ := h
      simp [sendsOf] at hlt
    · rw [if_neg he] at h
      have hpubs : sendsOf
          (if ch.ctype = ChannelType.news then [PEv.publish (α := α)] else []) = [] := by
        by_cases hn : ch.ctype = ChannelType.news <;> simp [hn, sendsOf]
      by_cases hs : sendOk k
      · rw [if_pos hs] at h
        obtain ⟨⟨b2, tr2⟩, hrec, hmap⟩ := Option.map_eq_some'.mp h
        simp only [Prod.mk.injEq] at hmap
        obtain ⟨rfl, rfl⟩ := hmap
        cases i with
        | zero =>
          rw [Nat.add_zero] at hfail
          rw [hfail] at hs
          exact absurd hs (by simp)
        | succ i2 =>
          have hfail2 : sendOk (k + 1 + i2) = false := by
            have he2 : k + 1 + i2 = k + (i2 + 1) := by omega
            rw [he2]; exact hfail
          have hbefore2 : ∀ m, m < i2 → sendOk (k + 1 + m) = true := by
            intro m hm
            have := hbefore (m + 1) (by omega)
            have he2 : k + (m + 1) = k + 1 + m := by omega
            rwa [he2] at this
          have hlt2 : i2 < (sendsOf tr2).length := by
            simp only [sendsOf, sendsOf_append, hpubs, List.nil_append,
              List.length_cons] at hlt
            omega
          obtain ⟨hb, c0, batch0, tr₀, htr, hcount⟩ :=
            ih _ first (k + 1) i2 _ _ hrec hfail2 hbefore2 hlt2
          subst htr
          refine ⟨hb, c0, batch0,
            PEv.send (if first then some content else none)
                (buildChunk len rev [] 0).1 ::
              ((if ch.ctype = ChannelType.news then [PEv.publish] else []) ++ tr₀),
            ?_, ?_⟩
          · simp
          · simp only [sendsOf, sendsOf_append, hpubs, List.nil_append,
              List.length_cons, hcount]
      · rw [if_neg hs] at h
        simp only [Option.some.injEq, Prod.mk.injEq] at h
        obtain ⟨rfl, rfl⟩ := h
        have hi : i = 0 := by
          simp only [sendsOf, List.length_cons, List.length_nil] at hlt
          omega
        subst hi
        exact ⟨rfl, (if first then some content else none),
          (buildChunk len rev [] 0).1, [], by simp, rfl⟩

/-- When every pending embed fits the 6000-character budget on its own,
the send loop terminates within `rev.length` outer iterations: each
iteration consumes at least one pending embed. -/
theorem postLoop_term (len : α → Nat) (ch : Channel) (content : String)
    (sendOk : Nat → Bool) :
    ∀ (fuel : Nat) (rev : List α) (first : Bool) (k : Nat),
      (∀ x ∈ rev, len x ≤ 6000) → rev.length ≤ fuel →
      ∃ r, postLoop len ch content sendOk fuel rev first k = some r := by
  intro fuel
  induction fuel with
  | zero =>
    intro rev first k hall hlen
    have hnil : rev = [] := List.eq_nil_of_length_eq_zero (by omega)
    subst hnil
    exact ⟨(true, [PEv.close]), by simp [postLoop]⟩
  | succ fuel ih =>
    intro rev first k hall hlen
    cases rev with
    | nil => exact ⟨(true, [PEv.close]), by simp [postLoop]⟩
    | cons e rest =>
      by_cases hs : sendOk k
      · have hfit : ¬ (0 + len e > 6000) := by
          have := hall e (List.mem_cons_self e rest)
          omega
        have hprog : (buildChunk len (e :: rest) [] 0).2.1.length ≤ rest.length :=
          buildChunk_progress len e rest [] 0 hfit
        have hsub : ∀ x ∈ (buildChunk len (e :: rest) [] 0).2.1, len x ≤ 6000 := by
          obtain ⟨d, -, hd2, -, -⟩ := buildChunk_spec len (e :: rest) [] 0
          intro x hx
          exact hall x (by rw [hd2]; exact List.mem_append_right _ hx)
        obtain ⟨r, hr⟩ := ih _ first (k + 1) hsub
          (by simp only [List.length_cons] at hlen; omega)
        refine ⟨(r.1, PEv.send (if first then some content else none)
            (buildChunk len (e :: rest) [] 0).1 ::
          ((if ch.ctype = ChannelType.news then [PEv.publish] else []) ++ r.2)), ?_⟩
        simp only [postLoop, List.isEmpty_cons, Bool.false_eq_true, if_false,
          if_pos hs, hr, Option.map_some']
      · exact ⟨(false, [PEv.send (if first then some content else none)
            (buildChunk len (e :: rest) [] 0).1, PEv.close]),
          by simp only [postLoop, List.isEmpty_cons, Bool.false_eq_true,
            if_false, if_neg hs]⟩

/-- An embed longer than 6000 characters is pushed back on every pass
that pops it and never leaves the pending list, so while every send
succeeds the outer loop never finishes, whatever iteration bound it is
given. -/
theorem postLoop_nonterm (len : α → Nat) (ch : Channel) (content : String)
    (sendOk : Nat → Bool) (hOk : ∀ j, sendOk j = true) (x : α)
    (hx : 6000 < len x) :
    ∀ (fuel : Nat) (rev : List α) (first : Bool) (k : Nat), x ∈ rev →
      postLoop len ch content sendOk fuel rev first k = none := by
  intro fuel
  induction fuel with
  | zero =>
    intro rev first k hmem
    cases rev with
    | nil => exact absurd hmem (List.not_mem_nil x)
    | cons e rest => simp [postLoop]
  | succ fuel ih =>
    intro rev first k hmem
    have hxrem : x ∈ (buildChunk len rev [] 0).2.1 := by
      obtain ⟨d, -, hd2, -, hd4⟩ := buildChunk_spec len rev [] 0
      rw [hd2] at hmem
      rcases List.mem_append.mp hmem with hxd | hr
      · exact absurd (hd4 x hxd) (by omega)
      · exact hr
    cases rev with
    | nil => exact absurd hmem (List.not_mem_nil x)
    | cons e rest =>
      simp only [postLoop, List.isEmpty_cons, Bool.false_eq_true, if_false,
        if_pos (hOk k), ih _ first (k + 1) hxrem, Option.map_none']

/-! ## Claim theorems -/

/-- C4: the constructed Event's description is the placeholder phrase
when the input description is absent or empty; a description longer
than 2048 characters is replaced by its first 2044 characters followed
by "...", giving exactly 2047 characters; descriptions of length 1 to
2048 are kept unchanged. -/
theorem C4_description_defaults :
    (parse_description none = "No description :shrug:".data ∧
      parse_description (some []) = "No description :shrug:".data) ∧
    (∀ d : List Char, d.length > 2048 →
      parse_description (some d) = d.take 2044 ++ "...".data ∧
      (parse_description (some d)).length = 2047) ∧
    (∀ d : List Char, 1 ≤ d.length → d.length ≤ 2048 →
      parse_description (some d) = d) := by
  refine ⟨⟨rfl, rfl⟩, ?_, ?_⟩
  · intro d hd
    have hne : d ≠ [] := by
      intro hnil
      subst hnil
      simp at hd
    have heq : parse_description (some d) = d.take 2044 ++ "...".data := by
      simp only [parse_description, Option.getD_some]
      rw [if_neg hne, if_pos hd]
    refine ⟨heq, ?_⟩
    rw [heq]
    have h3 : ("...".data).length = 3 := rfl
    simp only [List.length_append, List.length_take, h3]
    omega
  · intro d h1 h2
    have hne : d ≠ [] := by
      intro hnil
      subst hnil
      simp at h1
    have hgt : ¬ (d.length > 2048) := by omega
    simp only [parse_description, Option.getD_some]
    rw [if_neg hne, if_neg hgt]

/-- Witness for C4: a 2049-character description is truncated to
exactly 2047 characters, and a 2-character one is kept unchanged. -/
theorem C4_description_defaults_witness :
    parse_description (some (List.replicate 2049 'a')) =
      (List.replicate 2049 'a').take 2044 ++ "...".data ∧
    (parse_description (some (List.replicate 2049 'a'))).length = 2047 ∧
    parse_description (some ['h', 'i']) = ['h', 'i'] :=
  ⟨(C4_description_defaults.2.1 (List.replicate 2049 'a')
      (by rw [List.length_replicate]; omega)).1,
   (C4_description_defaults.2.1 (List.replicate 2049 'a')
      (by rw [List.length_replicate]; omega)).2,
   C4_description_defaults.2.2 ['h', 'i'] (by simp) (by simp)⟩

/-- C5 counterexample: the non-empty string "garbage" does not parse
under the documented format, and `parse_time` propagates the
`strptime` failure (a raised `ValueError`, modelled as `none`) instead
of returning the epoch timestamp — so `parse_time` does not "return
the epoch timestamp for any string that does not parse". -/
theorem C5_unparseable_counterexample :
    parse_time "garbage".data = none ∧
    parse_time "garbage".data ≠ some epochDatetime := by
  refine ⟨rfl, ?_⟩
  intro hc
  rw [(rfl : parse_time "garbage".data = none)] at hc
  exact Option.noConfusion hc

/-- C5 (amended): startTime defaults to the epoch timestamp only when
the input is absent/empty; a non-empty input is colon-stripped and
handed to `strptime`, whose failure on a string not matching the
format propagates as a raised error (`none`) rather than being
replaced by the epoch. -/
theorem C5_time_default :
    parse_time [] = some epochDatetime ∧
    (∀ t : List Char, t ≠ [] →
      parse_time t = strptime (t.filter (fun c => c ≠ ':'))) ∧
    parse_time "garbage".data = none := by
  refine ⟨rfl, ?_, rfl⟩
  intro t ht
  simp only [parse_time]
  rw [if_neg ht]

/-- Witness for C5 at concrete inputs: a well-formed timestamp string
is parsed (after colon-stripping), not defaulted. -/
theorem C5_time_default_witness :
    parse_time "2026-03-05T12:34:56+01:00".data =
      strptime ("2026-03-05T12:34:56+01:00".data.filter (fun c => c ≠ ':')) ∧
    parse_time "2026-03-05T12:34:56+01:00".data =
      some ⟨2026, 3, 5, 12, 34, 56, 60⟩ :=
  ⟨C5_time_default.2.1 "2026-03-05T12:34:56+01:00".data (by decide), by decide⟩

/-- C6: logo URL resolution is a pure function of its input string
(`parse_logo_url` is a function of `url` alone): the empty string maps
to the default icon constant, a string whose first character is "/"
maps to the API base origin concatenated with it, and any other
non-empty string is returned unchanged. -/
theorem C6_logo_url :
    parse_logo_url "" = DEFAULT_ICON ∧
    (∀ url : String, url ≠ "" → startsWithSlash url = true →
      parse_logo_url url = BASE_URL ++ url) ∧
    (∀ url : String, url ≠ "" → startsWithSlash url = false →
      parse_logo_url url = url) := by
  refine ⟨rfl, ?_, ?_⟩
  · intro url h1 h2
    simp only [parse_logo_url]
    rw [if_neg h1, if_pos h2]
  · intro url h1 h2
    simp only [parse_logo_url]
    rw [if_neg h1]
    rw [h2]
    simp

/-- Witness for C6 at concrete inputs. -/
theorem C6_logo_url_witness :
    parse_logo_url "/logo.png" = BASE_URL ++ "/logo.png" ∧
    parse_logo_url "https://example.com/a.png" = "https://example.com/a.png" :=
  ⟨C6_logo_url.2.1 "/logo.png" (by decide) (by decide),
   C6_logo_url.2.2 "https://example.com/a.png" (by decide) (by decide)⟩

/-- C1: at a failing input — a resolved text channel, lead-in "L",
eleven embeds of serialized length 100 each (which split into two
batches), every send succeeding — the code attaches the lead-in text
to BOTH batches: the Python variable `first` is initialized to `True`
on line 72 and never reassigned, so `content = self.content if first
else None` (line 95) always picks the lead-in, contradicting the
claim that only the first sent batch carries it.  (The batch bounds —
at most 10 embeds, at most 6000 summed characters — do hold on every
run: see `postLoop_batches_ok`.) -/
theorem C1_lead_in_every_batch :
    post_announcement (fun n => n) (some ⟨ChannelType.text⟩) "L"
        (fun _ => true) (List.replicate 11 100) 2 =
      some (true,
        [PEv.send (some "L") (List.replicate 10 100),
         PEv.send (some "L") [100],
         PEv.close]) := by
  rfl

/-- C2 counterexample: with cache contents "1,2" and an empty fetched
batch, the joined ID string "" differs from the cached string, yet
`send_updates` neither overwrites the cache file nor creates/runs a
chat client and returns `False`: the `if not ctfs` check on line 242
rejects the empty batch before the dedup step ever runs, so the
claim's "otherwise it overwrites the cache file with the new joined
string before the publish step begins" fails for the empty fetched
batch. -/
theorem C2_empty_batch_counterexample :
    joined_ids [] ≠ pyStrip "1,2" ∧
    send_updates (some "1,2") (some []) true = (false, []) :=
  ⟨by decide, rfl⟩

/-- C2 (amended): for every NONEMPTY fetched batch and every
configured cache path: if the comma-joined (in fetch order) ID string
equals the stripped cached string, `send_updates` aborts with `False`
without writing the cache file and without creating or running a chat
client; otherwise it overwrites the cache file with the new joined
string strictly before the chat client is created and run, and
neither the write nor the outcome depends on the publish result (no
rollback).  An empty fetched batch instead aborts before the dedup
check.  Reordering the same set of IDs changes the joined string and
so takes the full re-post path. -/
theorem C2_cache_decision (cacheContents : String) (ctfs : List CTF)
    (publishOk : Bool) (hne : ctfs ≠ []) :
    (pyStrip cacheContents = joined_ids ctfs →
      send_updates (some cacheContents) (some ctfs) publishOk = (false, [])) ∧
    (pyStrip cacheContents ≠ joined_ids ctfs →
      send_updates (some cacheContents) (some ctfs) publishOk =
        (true, [UEv.cacheWrite (joined_ids ctfs), UEv.clientRun])) := by
  constructor
  · intro h
    simp only [send_updates]
    rw [if_neg hne, if_pos h]
  · intro h
    simp only [send_updates]
    rw [if_neg hne, if_neg h]
    rfl

/-- Witness for C2: fetched IDs [2, 1] against cache "1,2" — the same
set in a different order — join to "2,1" ≠ "1,2", so the cache is
overwritten (the write event precedes the client run) and the whole
batch is re-posted, with the publish outcome (here `false`) playing no
role; against cache "2,1" the same batch is a cache hit and nothing
happens. -/
theorem C2_cache_decision_witness :
    send_updates (some "1,2") (some [⟨2⟩, ⟨1⟩]) false =
      (true, [UEv.cacheWrite (joined_ids [⟨2⟩, ⟨1⟩]), UEv.clientRun]) ∧
    joined_ids [⟨2⟩, ⟨1⟩] = "2,1" ∧
    send_updates (some "2,1") (some [⟨2⟩, ⟨1⟩]) false = (false, []) :=
  ⟨(C2_cache_decision "1,2" [⟨2⟩, ⟨1⟩] false (by decide)).2 (by decide),
   by decide,
   (C2_cache_decision "2,1" [⟨2⟩, ⟨1⟩] false (by decide)).1 (by decide)⟩

/-- C3 counterexample: when the channel id resolves to a channel whose
type is not a usable text channel, `post_announcement` returns failure
WITHOUT closing the chat connection — lines 63-69 `return False` with
no `await self.close()` — so the trace is empty, with no close event,
contradicting the claim that every destination-resolution failure
closes the chat connection. -/
theorem C3_no_close_counterexample :
    post_announcement (fun n => n) (some ⟨ChannelType.other⟩) "L"
        (fun _ => true) [100] 5 = some (false, []) ∧
    PEv.close ∉ ([] : List (PEv Nat)) :=
  ⟨rfl, by simp⟩

/-- C3 (amended): a channel id that does not resolve is logged, the
connection is closed and failure is returned without any send being
attempted; a resolved channel of an unusable type is logged and
failure is returned without any send, but the connection is NOT
closed (the trace is empty). -/
theorem C3_resolution_failure (len : α → Nat) (content : String)
    (sendOk : Nat → Bool) (embeds : List α) (fuel : Nat) (ch : Channel)
    (h : isTextChannel ch.ctype = false) :
    post_announcement len none content sendOk embeds fuel =
      some (false, [PEv.close]) ∧
    post_announcement len (some ch) content sendOk embeds fuel =
      some (false, []) := by
  refine ⟨rfl, ?_⟩
  simp only [post_announcement]
  rw [h]
  simp

/-- Witness for C3 at concrete inputs. -/
theorem C3_resolution_failure_witness :
    post_announcement (fun n => n) none "L" (fun _ => true) [100] 7 =
      some (false, [PEv.close]) ∧
    post_announcement (fun n => n) (some ⟨ChannelType.other⟩) "L"
        (fun _ => true) [100] 7 = some (false, []) :=
  C3_resolution_failure (fun n => n) "L" (fun _ => true) [100] 7
    ⟨ChannelType.other⟩ rfl

/-- C7: if the `i`-th batch send returns no message while all earlier
sends succeeded, the publish step reports failure for the whole run
and the trace ends with the failing send immediately followed by the
close: no later batch is sent, and neither the failing batch nor any
later one is promoted/crossposted (no event at all follows the
failing send except the close). -/
theorem C7_send_failure_aborts (len : α → Nat) (resolved : Option Channel)
    (content : String) (sendOk : Nat → Bool) (embeds : List α) (fuel : Nat)
    (b : Bool) (tr : List (PEv α)) (i : Nat)
    (hrun : post_announcement len resolved content sendOk embeds fuel =
      some (b, tr))
    (hfail : sendOk i = false)
    (hbefore : ∀ m, m < i → sendOk m = true)
    (hsent : i < (sendsOf tr).length) :
    b = false ∧ ∃ c batch tr₀,
      tr = tr₀ ++ [PEv.send c batch, PEv.close] ∧
      (sendsOf tr₀).length = i := by
  cases resolved with
  | none =>
    simp only [post_announcement, Option.some.injEq, Prod.mk.injEq] at hrun
    obtain ⟨rfl, rfl⟩ := hrun
    simp [sendsOf] at hsent
  | some ch =>
    simp only [post_announcement] at hrun
    by_cases ht : isTextChannel ch.ctype
    · rw [if_pos ht] at hrun
      exact postLoop_fail len ch content sendOk fuel embeds.reverse true 0 i
        b tr hrun (by simpa using hfail)
        (by intro m hm; simpa using hbefore m hm) hsent
    · rw [if_neg ht] at hrun
      simp only [Option.some.injEq, Prod.mk.injEq] at hrun
      obtain ⟨rfl, rfl⟩ := hrun
      simp [sendsOf] at hsent

/-- Witness for C7: eleven embeds of length 100 with the second send
failing — the run reports failure and the trace is one successful
send, the failing send, then the close. -/
theorem C7_send_failure_aborts_witness :
    false = false ∧ ∃ c batch tr₀,
      ([PEv.send (some "L") (List.replicate 10 (100 : Nat)),
        PEv.send (some "L") [100], PEv.close] : List (PEv Nat)) =
        tr₀ ++ [PEv.send c batch, PEv.close] ∧
      (sendsOf tr₀).length = 1 :=
  C7_send_failure_aborts (fun n => n) (some ⟨ChannelType.text⟩) "L"
    (fun k => k == 0) (List.replicate 11 100) 2 false
    [PEv.send (some "L") (List.replicate 10 100),
     PEv.send (some "L") [100], PEv.close] 1
    (by rfl) (by rfl)
    (by intro m hm
        have hm0 : m = 0 := by omega
        subst hm0
        rfl)
    (by decide)

/-- C8: when the fetch returns an empty event list, `send_updates`
stops as a no-op for every cache configuration and publish outcome: it
returns `False` without raising, the cache file is not written, and no
chat client is created or run (the effect trace is empty). -/
theorem C8_empty_fetch_noop (cacheFile : Option String) (publishOk : Bool) :
    send_updates cacheFile (some []) publishOk = (false, []) := by
  cases cacheFile <;> rfl

/-- C9 counterexample: the pending list [7000, 100] (Python order; the
loop pops from the end, so the model's reversed list is [100, 7000])
contains an embed of serialized length 7000 > 6000, yet a single pass
of the inner loop consumes the length-100 embed and leaves only the
oversized one: the pending list DOES shrink, from 2 embeds to 1,
refuting the claim's "the pending list never shrinks". -/
theorem C9_shrink_counterexample :
    (∃ x ∈ ([100, 7000] : List Nat), 6000 < x) ∧
    (buildChunk (fun n => n) [100, 7000] [] 0).2.1.length <
      ([100, 7000] : List Nat).length :=
  ⟨⟨7000, by decide, by decide⟩, by decide⟩

/-- C9 (amended): when every pending embed's serialized length is at
most 6000, each outer iteration removes at least one embed from the
pending list and the send loop terminates within pending-length
iterations.  When some pending embed is longer than 6000 characters,
the inner loop pushes it back every time it is popped, it never leaves
the pending list, and the loop never terminates by emptying the
pending list (no run ever returns success); if additionally every send
succeeds, the loop does not terminate at all — every iteration bound
is exhausted.  The pending list may still shrink on passes that
consume shorter embeds. -/
theorem C9_loop_behavior (len : α → Nat) (ch : Channel) (content : String)
    (sendOk : Nat → Bool) (rev : List α) (first : Bool) (k : Nat) :
    ((∀ x ∈ rev, len x ≤ 6000) →
      ∃ r, postLoop len ch content sendOk rev.length rev first k = some r) ∧
    (rev ≠ [] → (∀ x ∈ rev, len x ≤ 6000) →
      (buildChunk len rev [] 0).2.1.length < rev.length) ∧
    (∀ x ∈ rev, 6000 < len x →
      (∀ fuel tr, postLoop len ch content sendOk fuel rev first k ≠
        some (true, tr)) ∧
      ((∀ j, sendOk j = true) →
        ∀ fuel, postLoop len ch content sendOk fuel rev first k = none)) := by
  refine ⟨?_, ?_, ?_⟩
  · intro hall
    exact postLoop_term len ch content sendOk rev.length rev first k hall
      (Nat.le_refl _)
  · intro hne hall
    cases rev with
    | nil => exact absurd rfl hne
    | cons e rest =>
      have hfit : ¬ (0 + len e > 6000) := by
        have := hall e (List.mem_cons_self e rest)
        omega
      have := buildChunk_progress len e rest [] 0 hfit
      simp only [List.length_cons]
      omega
  · intro x hmem hx
    constructor
    · intro fuel tr hc
      obtain ⟨rem, h1, h2, h3⟩ :=
        postLoop_trace len ch content sendOk fuel rev first k true tr hc
      rw [h2 rfl, List.append_nil] at h1
      rw [h1] at hmem
      exact absurd (h3 x hmem) (by omega)
    · intro hOk fuel
      exact postLoop_nonterm len ch content sendOk hOk x hx fuel rev first k
        hmem

/-- Witness for C9: two length-100 embeds terminate within 2
iterations; a single length-7000 embed exhausts any bound (here 5)
when sends succeed. -/
theorem C9_loop_behavior_witness :
    (∃ r, postLoop (fun n => n) ⟨ChannelType.text⟩ "L" (fun _ => true)
      ([100, 100] : List Nat).length [100, 100] true 0 = some r) ∧
    postLoop (fun n => n) ⟨ChannelType.text⟩ "L" (fun _ => true)
      5 [7000] true 0 = none :=
  ⟨(C9_loop_behavior (fun n => n) ⟨ChannelType.text⟩ "L" (fun _ => true)
      [100, 100] true 0).1 (by decide),
   ((C9_loop_behavior (fun n => n) ⟨ChannelType.text⟩ "L" (fun _ => true)
      [7000] true 0).2.2 7000 (by decide) (by decide)).2
      (fun _ => rfl) 5⟩

/-- C10: the publisher pops embeds from the end of the pending list,
so the embeds actually sent — the batches concatenated in send order,
within and across batches — form exactly the reverse of the fetched
order on a successful run, and an initial segment of that reverse on
every terminating run. -/
theorem C10_reverse_order (len : α → Nat) (resolved : Option Channel)
    (content : String) (sendOk : Nat → Bool) (embeds : List α) (fuel : Nat)
    (b : Bool) (tr : List (PEv α))
    (hrun : post_announcement len resolved content sendOk embeds fuel =
      some (b, tr)) :
    ∃ rem, embeds.reverse = joinBatches tr ++ rem ∧
      (b = true → rem = []) := by
  cases resolved with
  | none =>
    simp only [post_announcement, Option.some.injEq, Prod.mk.injEq] at hrun
    obtain ⟨rfl, rfl⟩ := hrun
    exact ⟨embeds.reverse, by simp [joinBatches_close],
      fun hc => absurd hc (by simp)⟩
  | some ch =>
    simp only [post_announcement] at hrun
    by_cases ht : isTextChannel ch.ctype
    · rw [if_pos ht] at hrun
      obtain ⟨rem, h1, h2, -⟩ :=
        postLoop_trace len ch content sendOk fuel embeds.reverse true 0 b tr
          hrun
      exact ⟨rem, h1, h2⟩
    · rw [if_neg ht] at hrun
      simp only [Option.some.injEq, Prod.mk.injEq] at hrun
      obtain ⟨rfl, rfl⟩ := hrun
      exact ⟨embeds.reverse, by simp [joinBatches, sendsOf],
        fun hc => absurd hc (by simp)⟩

/-- Witness for C10: fetched embeds [1, 2, 3] are sent as the single
batch [3, 2, 1]. -/
theorem C10_reverse_order_witness :
    ∃ rem, ([1, 2, 3] : List Nat).reverse =
      joinBatches [PEv.send (some "L") [3, 2, 1], PEv.close] ++ rem ∧
      (true = true → rem = []) :=
  C10_reverse_order (fun n => n) (some ⟨ChannelType.text⟩) "L"
    (fun _ => true) [1, 2, 3] 3 true
    [PEv.send (some "L") [3, 2, 1], PEv.close] (by rfl)

end CTFTimeBot
